import Mathlib

/-!
Verification of the instruction-classification pass
(src/InstructionClassification.cpp) against its specification.

The pass walks every instruction of an LLVM function, dispatches on the
opcode with one switch statement, and pushes the instruction onto one of
ten member vectors; a print method emits the ten sizes.  We embed the
opcode space, the pass state, the classification loop and the report
emitter as Lean definitions and prove the specified properties.
-/

namespace InstrClass

set_option maxHeartbeats 1600000 in
/-- The LLVM opcode space as seen by the switch statement in
runOnFunction.  Every opcode named by a case label is a constructor;
opcodes that exist in LLVM but reach the default arm (phi, call,
compares, select, landing pad, va-arg, freeze) are also constructors,
and the open-ended remainder of the evolving enumeration is modelled by
the Unknown constructor carrying the raw opcode number. -/
inductive Opcode where
  | Ret | Br | Switch | IndirectBr | Invoke | CallBr | Resume
  | CatchSwitch | CatchRet | CleanupRet | Unreachable
  | FNeg
  | Add | Sub | Mul | UDiv | SDiv | URem | SRem
  | FAdd | FSub | FMul | FRem | FDiv
  | Shl | LShr | AShr | And | Or | Xor
  | ExtractElement | InsertElement | ShuffleVector
  | ExtractValue | InsertValue
  | Alloca | Load | Store | Fence | AtomicCmpXchg | AtomicRMW
  | GetElementPtr
  | Trunc | ZExt | SExt | FPTrunc | FPExt | FPToUI | FPToSI
  | UIToFP | SIToFP | PtrToInt | IntToPtr | BitCast | AddrSpaceCast
  | PHI | Call | ICmp | FCmp | Select | LandingPad | VAArg | Freeze
  | Unknown (code : Nat)

/-- One instruction of the function body: its opcode discriminant plus
an identity (standing for the const Instruction pointer, used only for
ordering and counting). -/
structure Instruction where
  opcode : Opcode
  id : Nat

/-- The state of the InstructionClassification pass object: the stored
function pointer and the ten SmallVector members, one per category
(lines 34 to 44 of the source). -/
structure InstructionClassification where
  F : Option (List Instruction)
  TermOps : List Instruction
  UnaryOps : List Instruction
  BinaryOps : List Instruction
  FloatBinaryOps : List Instruction
  BitwiseBinaryOps : List Instruction
  VectorOps : List Instruction
  AggregateOps : List Instruction
  MemAccessAndAddrOps : List Instruction
  ConvOps : List Instruction
  OtherOps : List Instruction

/-- The default-constructed pass object: the constructor on line 48
leaves every SmallVector empty and the function pointer unset. -/
def initialPass : InstructionClassification :=
  { F := none, TermOps := [], UnaryOps := [], BinaryOps := [],
    FloatBinaryOps := [], BitwiseBinaryOps := [], VectorOps := [],
    AggregateOps := [], MemAccessAndAddrOps := [], ConvOps := [],
    OtherOps := [] }

/-- The body of the classification loop (lines 92 to 168): one switch on
the opcode of the current instruction, each case pushing the instruction
onto the member vector of its category, the default arm pushing onto
OtherOps. -/
def classifyInst (self : InstructionClassification) (I : Instruction) :
    InstructionClassification :=
  match I.opcode with
  | .Ret | .Br | .Switch | .IndirectBr | .Invoke | .CallBr | .Resume
  | .CatchSwitch | .CatchRet | .CleanupRet | .Unreachable =>
      { self with TermOps := self.TermOps ++ [I] }
  | .FNeg =>
      { self with UnaryOps := self.UnaryOps ++ [I] }
  | .Add | .Sub | .Mul | .UDiv | .SDiv | .URem | .SRem =>
      { self with BinaryOps := self.BinaryOps ++ [I] }
  | .FAdd | .FSub | .FMul | .FRem | .FDiv =>
      { self with FloatBinaryOps := self.FloatBinaryOps ++ [I] }
  | .Shl | .LShr | .AShr | .And | .Or | .Xor =>
      { self with BitwiseBinaryOps := self.BitwiseBinaryOps ++ [I] }
  | .ExtractElement | .InsertElement | .ShuffleVector =>
      { self with VectorOps := self.VectorOps ++ [I] }
  | .ExtractValue | .InsertValue =>
      { self with AggregateOps := self.AggregateOps ++ [I] }
  | .Alloca | .Load | .Store | .Fence | .AtomicCmpXchg | .AtomicRMW
  | .GetElementPtr =>
      { self with MemAccessAndAddrOps := self.MemAccessAndAddrOps ++ [I] }
  | .Trunc | .ZExt | .SExt | .FPTrunc | .FPExt | .FPToUI | .FPToSI
  | .UIToFP | .SIToFP | .PtrToInt | .IntToPtr | .BitCast
  | .AddrSpaceCast =>
      { self with ConvOps := self.ConvOps ++ [I] }
  | _ =>
      { self with OtherOps := self.OtherOps ++ [I] }

/-- runOnFunction (lines 88 to 172): store the function pointer, run the
classification loop over the instruction stream in traversal order, and
return false (the function was not modified).  The function body is
returned unchanged alongside the new pass state, making explicit that
the loop only reads it. -/
def runOnFunction (self : InstructionClassification)
    (F : List Instruction) :
    InstructionClassification × List Instruction × Bool :=
  (List.foldl classifyInst { self with F := some F } F, F, false)

/-- Classification of a function by a freshly constructed pass object,
as performed the first time the host invokes the pass: runOnFunction on
the default-constructed state, projected to the resulting pass state. -/
def classify (F : List Instruction) : InstructionClassification :=
  (runOnFunction initialPass F).1

/-- getAnalysisUsage (lines 59 to 61): the pass declares that it
preserves all analyses. -/
structure AnalysisUsage where
  preservesAll : Bool

/-- The body of getAnalysisUsage: AU.setPreservesAll(). -/
def getAnalysisUsage : AnalysisUsage := { preservesAll := true }

/-- The ten fixed categories of the data model, named as in the
specification; each corresponds to one member vector of the pass. -/
inductive Category where
  | Terminator | UnaryArithmetic | BinaryArithmeticInteger
  | BinaryArithmeticFloat | BitwiseBinary | Vector | Aggregate
  | MemoryAndAddressing | Conversion | Other
  deriving DecidableEq

/-- The fixed category order used by both the data model and the report:
Terminator first, Other last. -/
def categoryOrder : List Category :=
  [.Terminator, .UnaryArithmetic, .BinaryArithmeticInteger,
   .BinaryArithmeticFloat, .BitwiseBinary, .Vector, .Aggregate,
   .MemoryAndAddressing, .Conversion, .Other]

/-- The member vector of the pass holding a given category. -/
def listOf (self : InstructionClassification) : Category →
    List Instruction
  | .Terminator => self.TermOps
  | .UnaryArithmetic => self.UnaryOps
  | .BinaryArithmeticInteger => self.BinaryOps
  | .BinaryArithmeticFloat => self.FloatBinaryOps
  | .BitwiseBinary => self.BitwiseBinaryOps
  | .Vector => self.VectorOps
  | .Aggregate => self.AggregateOps
  | .MemoryAndAddressing => self.MemAccessAndAddrOps
  | .Conversion => self.ConvOps
  | .Other => self.OtherOps

/-- The per-category count: the size of the category list, as taken by
the print method (lines 64 to 73). -/
def countOf (self : InstructionClassification) (c : Category) : Nat :=
  (listOf self c).length

/-- The category an opcode is assigned to by the switch statement: one
arm per group of case labels, the default arm giving Other.  This is the
lookup table of the specification, read off the same switch. -/
def categoryOf : Opcode → Category
  | .Ret | .Br | .Switch | .IndirectBr | .Invoke | .CallBr | .Resume
  | .CatchSwitch | .CatchRet | .CleanupRet | .Unreachable =>
      .Terminator
  | .FNeg => .UnaryArithmetic
  | .Add | .Sub | .Mul | .UDiv | .SDiv | .URem | .SRem =>
      .BinaryArithmeticInteger
  | .FAdd | .FSub | .FMul | .FRem | .FDiv => .BinaryArithmeticFloat
  | .Shl | .LShr | .AShr | .And | .Or | .Xor => .BitwiseBinary
  | .ExtractElement | .InsertElement | .ShuffleVector => .Vector
  | .ExtractValue | .InsertValue => .Aggregate
  | .Alloca | .Load | .Store | .Fence | .AtomicCmpXchg | .AtomicRMW
  | .GetElementPtr => .MemoryAndAddressing
  | .Trunc | .ZExt | .SExt | .FPTrunc | .FPExt | .FPToUI | .FPToSI
  | .UIToFP | .SIToFP | .PtrToInt | .IntToPtr | .BitCast
  | .AddrSpaceCast => .Conversion
  | _ => .Other

/-- Whether an opcode appears as an explicit case label of the switch,
that is, whether it is present in the lookup table; opcodes reaching the
default arm are not listed. -/
def listedInTable : Opcode → Bool
  | .Ret | .Br | .Switch | .IndirectBr | .Invoke | .CallBr | .Resume
  | .CatchSwitch | .CatchRet | .CleanupRet | .Unreachable
  | .FNeg
  | .Add | .Sub | .Mul | .UDiv | .SDiv | .URem | .SRem
  | .FAdd | .FSub | .FMul | .FRem | .FDiv
  | .Shl | .LShr | .AShr | .And | .Or | .Xor
  | .ExtractElement | .InsertElement | .ShuffleVector
  | .ExtractValue | .InsertValue
  | .Alloca | .Load | .Store | .Fence | .AtomicCmpXchg | .AtomicRMW
  | .GetElementPtr
  | .Trunc | .ZExt | .SExt | .FPTrunc | .FPExt | .FPToUI | .FPToSI
  | .UIToFP | .SIToFP | .PtrToInt | .IntToPtr | .BitCast
  | .AddrSpaceCast => true
  | _ => false

/-- The label text each category is printed under, exactly the string
literals of the print method (lines 75 to 85), up to the separating
colon and space. -/
def labelOf : Category → String
  | .Terminator => "  # terminator operations"
  | .UnaryArithmetic => "  # unary operations"
  | .BinaryArithmeticInteger => "  # binary operations"
  | .BinaryArithmeticFloat => "  # float binary operations"
  | .BitwiseBinary => "  # bitwise binary operations"
  | .Vector => "  # vector operations"
  | .Aggregate => "  # aggregate operations"
  | .MemoryAndAddressing => "  # memory access and addressing operations"
  | .Conversion => "  # conversion operations"
  | .Other => "  # other operations"

/-- The print method (lines 63 to 86) as the sequence of lines it sends
to the stream: ten lines, one per category, each the label followed by a
colon, a space, the decimal count, and a newline, in the fixed order of
the source. -/
def printLines (self : InstructionClassification) : List String :=
  [ "  # terminator operations: " ++
      toString self.TermOps.length ++ "\n",
    "  # unary operations: " ++
      toString self.UnaryOps.length ++ "\n",
    "  # binary operations: " ++
      toString self.BinaryOps.length ++ "\n",
    "  # float binary operations: " ++
      toString self.FloatBinaryOps.length ++ "\n",
    "  # bitwise binary operations: " ++
      toString self.BitwiseBinaryOps.length ++ "\n",
    "  # vector operations: " ++
      toString self.VectorOps.length ++ "\n",
    "  # aggregate operations: " ++
      toString self.AggregateOps.length ++ "\n",
    "  # memory access and addressing operations: " ++
      toString self.MemAccessAndAddrOps.length ++ "\n",
    "  # conversion operations: " ++
      toString self.ConvOps.length ++ "\n",
    "  # other operations: " ++
      toString self.OtherOps.length ++ "\n" ]

/-- The full report text: the concatenation of the ten lines in order,
as written to the output stream. -/
def printOutput (self : InstructionClassification) : String :=
  String.join (printLines self)

/-- Auxiliary: push an instruction onto the member vector of the given
category, leaving every other field unchanged. -/
def pushTo (self : InstructionClassification) (c : Category)
    (I : Instruction) : InstructionClassification :=
  match c with
  | .Terminator => { self with TermOps := self.TermOps ++ [I] }
  | .UnaryArithmetic => { self with UnaryOps := self.UnaryOps ++ [I] }
  | .BinaryArithmeticInteger =>
      { self with BinaryOps := self.BinaryOps ++ [I] }
  | .BinaryArithmeticFloat =>
      { self with FloatBinaryOps := self.FloatBinaryOps ++ [I] }
  | .BitwiseBinary =>
      { self with BitwiseBinaryOps := self.BitwiseBinaryOps ++ [I] }
  | .Vector => { self with VectorOps := self.VectorOps ++ [I] }
  | .Aggregate => { self with AggregateOps := self.AggregateOps ++ [I] }
  | .MemoryAndAddressing =>
      { self with MemAccessAndAddrOps := self.MemAccessAndAddrOps ++ [I] }
  | .Conversion => { self with ConvOps := self.ConvOps ++ [I] }
  | .Other => { self with OtherOps := self.OtherOps ++ [I] }

/-- Total count held by the pass state: the sum of the sizes of the ten
member vectors. -/
def sumCounts (self : InstructionClassification) : Nat :=
  self.TermOps.length + self.UnaryOps.length + self.BinaryOps.length +
  self.FloatBinaryOps.length + self.BitwiseBinaryOps.length +
  self.VectorOps.length + self.AggregateOps.length +
  self.MemAccessAndAddrOps.length + self.ConvOps.length +
  self.OtherOps.length

lemma classifyInst_eq_pushTo (self : InstructionClassification)
    (I : Instruction) :
    classifyInst self I = pushTo self (categoryOf I.opcode) I := by
  rcases I with ⟨op, n⟩
  cases op <;> rfl

lemma listOf_pushTo (self : InstructionClassification) (c d : Category)
    (I : Instruction) :
    listOf (pushTo self c I) d =
      if c = d then listOf self d ++ [I] else listOf self d := by
  cases c <;> cases d <;> simp [pushTo, listOf]

lemma listOf_foldl (ops : List Instruction)
    (self : InstructionClassification) (c : Category) :
    listOf (List.foldl classifyInst self ops) c =
      listOf self c ++
        ops.filter (fun I => categoryOf I.opcode == c) := by
  induction ops generalizing self with
  | nil => simp
  | cons I ops ih =>
      rw [List.foldl_cons, ih, classifyInst_eq_pushTo, listOf_pushTo,
        List.filter_cons]
      by_cases h : categoryOf I.opcode = c
      · simp [h]
      · simp [h]

lemma listOf_initial_run (L : List Instruction) (c : Category) :
    listOf ({ initialPass with F := some L } :
      InstructionClassification) c = [] := by
  cases c <;> rfl

lemma listOf_classify (F : List Instruction) (c : Category) :
    listOf (classify F) c =
      F.filter (fun I => categoryOf I.opcode == c) := by
  rw [classify, runOnFunction, listOf_foldl, listOf_initial_run,
    List.nil_append]

lemma mem_listOf_classify (F : List Instruction) (I : Instruction)
    (c : Category) :
    I ∈ listOf (classify F) c ↔ I ∈ F ∧ categoryOf I.opcode = c := by
  rw [listOf_classify]
  simp [List.mem_filter]

lemma sumCounts_pushTo (self : InstructionClassification) (c : Category)
    (I : Instruction) :
    sumCounts (pushTo self c I) = sumCounts self + 1 := by
  cases c <;> simp [pushTo, sumCounts] <;> omega

lemma sumCounts_foldl (ops : List Instruction)
    (self : InstructionClassification) :
    sumCounts (List.foldl classifyInst self ops) =
      sumCounts self + ops.length := by
  induction ops generalizing self with
  | nil => simp
  | cons I ops ih =>
      rw [List.foldl_cons, ih, classifyInst_eq_pushTo, sumCounts_pushTo,
        List.length_cons]
      omega

lemma sum_countOf_eq_sumCounts (self : InstructionClassification) :
    (categoryOrder.map (countOf self)).sum = sumCounts self := by
  simp [categoryOrder, countOf, listOf, sumCounts]
  omega

lemma sum_countOf_classify (F : List Instruction) :
    (categoryOrder.map (countOf (classify F))).sum = F.length := by
  rw [sum_countOf_eq_sumCounts, classify, runOnFunction, sumCounts_foldl]
  simp [sumCounts, initialPass]

lemma categoryOf_eq_other_of_not_listed (op : Opcode)
    (h : listedInTable op = false) : categoryOf op = Category.Other := by
  cases op <;> first | rfl | exact absurd h (by decide)

/-- C1: after classifying any input sequence from a fresh pass state,
every operation of the input lies in exactly one of the ten category
lists, and the sum of the ten per-category counts equals the length of
the input sequence. -/
theorem classify_total_disjoint_partition (F : List Instruction) :
    (∀ I, I ∈ F → ∃! c : Category, I ∈ listOf (classify F) c) ∧
    (categoryOrder.map (countOf (classify F))).sum = F.length := by
  refine ⟨fun I hI => ⟨categoryOf I.opcode, ?_, ?_⟩, sum_countOf_classify F⟩
  · exact (mem_listOf_classify F I _).mpr ⟨hI, rfl⟩
  · intro c hc
    exact ((mem_listOf_classify F I c).mp hc).2.symm

/-- Witness for C1 at the concrete one-instruction input consisting of a
return. -/
theorem classify_total_disjoint_partition_witness :
    (∃! c : Category,
      (⟨Opcode.Ret, 0⟩ : Instruction) ∈
        listOf (classify [⟨Opcode.Ret, 0⟩]) c) ∧
    (categoryOrder.map (countOf (classify [⟨Opcode.Ret, 0⟩]))).sum = 1 :=
  ⟨(classify_total_disjoint_partition [⟨Opcode.Ret, 0⟩]).1
      ⟨Opcode.Ret, 0⟩ (List.mem_singleton.mpr rfl),
   (classify_total_disjoint_partition [⟨Opcode.Ret, 0⟩]).2⟩

/-- C2: an operation whose opcode is not an explicit case label of the
switch is assigned to the Other category; it is not dropped, and the
classification of the whole sequence still accounts for every
operation. -/
theorem unlisted_opcode_goes_to_other (F : List Instruction)
    (I : Instruction) (hmem : I ∈ F)
    (h : listedInTable I.opcode = false) :
    categoryOf I.opcode = Category.Other ∧
    I ∈ listOf (classify F) Category.Other ∧
    (categoryOrder.map (countOf (classify F))).sum = F.length := by
  have hcat := categoryOf_eq_other_of_not_listed I.opcode h
  exact ⟨hcat, (mem_listOf_classify F I _).mpr ⟨hmem, hcat⟩,
    sum_countOf_classify F⟩

/-- Witness for C2 at a phi-node and at an unknown future opcode. -/
theorem unlisted_opcode_goes_to_other_witness :
    (categoryOf Opcode.PHI = Category.Other ∧
     (⟨Opcode.PHI, 0⟩ : Instruction) ∈
       listOf (classify [⟨Opcode.PHI, 0⟩, ⟨Opcode.Unknown 99, 1⟩])
         Category.Other ∧
     (categoryOrder.map (countOf
       (classify [⟨Opcode.PHI, 0⟩, ⟨Opcode.Unknown 99, 1⟩]))).sum = 2) ∧
    (categoryOf (Opcode.Unknown 99) = Category.Other ∧
     (⟨Opcode.Unknown 99, 1⟩ : Instruction) ∈
       listOf (classify [⟨Opcode.PHI, 0⟩, ⟨Opcode.Unknown 99, 1⟩])
         Category.Other ∧
     (categoryOrder.map (countOf
       (classify [⟨Opcode.PHI, 0⟩, ⟨Opcode.Unknown 99, 1⟩]))).sum = 2) :=
  ⟨unlisted_opcode_goes_to_other
      [⟨Opcode.PHI, 0⟩, ⟨Opcode.Unknown 99, 1⟩] ⟨Opcode.PHI, 0⟩
      (List.mem_cons_self _ _) rfl,
   unlisted_opcode_goes_to_other
      [⟨Opcode.PHI, 0⟩, ⟨Opcode.Unknown 99, 1⟩] ⟨Opcode.Unknown 99, 1⟩
      (List.mem_cons_of_mem _ (List.mem_singleton.mpr rfl)) rfl⟩

/-- C3 (code bug): the member vectors are never cleared, so a second
invocation of runOnFunction keeps the previous function's instructions.
After classifying the one-instruction function with an add and then the
one-instruction function with a load, the integer-arithmetic list still
holds the add of the first function, its count is one instead of zero,
and the ten counts sum to two although the second function has only one
instruction. -/
theorem second_run_keeps_first_function_state :
    ((runOnFunction (runOnFunction initialPass
        [⟨Opcode.Add, 0⟩]).1 [⟨Opcode.Load, 1⟩]).1).BinaryOps =
      [⟨Opcode.Add, 0⟩] ∧
    countOf (runOnFunction (runOnFunction initialPass
        [⟨Opcode.Add, 0⟩]).1 [⟨Opcode.Load, 1⟩]).1
      Category.BinaryArithmeticInteger = 1 ∧
    (categoryOrder.map (countOf (runOnFunction (runOnFunction initialPass
        [⟨Opcode.Add, 0⟩]).1 [⟨Opcode.Load, 1⟩]).1)).sum = 2 :=
  ⟨rfl, rfl, rfl⟩

/-- C4: the report consists of exactly ten lines, one per category in
the fixed order Terminator to Other, each line being the category label
followed by a colon, a space and the count, printed also when the count
is zero; the report text is their concatenation. -/
theorem print_ten_lines_fixed_order (self : InstructionClassification) :
    printLines self = categoryOrder.map
      (fun c => labelOf c ++ ": " ++ toString (countOf self c) ++ "\n") ∧
    (printLines self).length = 10 ∧
    printOutput self = String.join (categoryOrder.map
      (fun c => labelOf c ++ ": " ++ toString (countOf self c) ++ "\n")) := by
  refine ⟨rfl, rfl, rfl⟩

/-- C5: the list accumulated for each category is exactly the
subsequence of the input with that category, in input traversal order;
in particular it is a sublist of the input. -/
theorem category_lists_preserve_input_order (F : List Instruction)
    (c : Category) :
    listOf (classify F) c =
      F.filter (fun I => categoryOf I.opcode == c) ∧
    List.Sublist (listOf (classify F) c) F := by
  refine ⟨listOf_classify F c, ?_⟩
  rw [listOf_classify F c]
  exact List.filter_sublist F

/-- C6: classification and report emission are deterministic functions
of the input sequence: running the pass on equal sequences produces
equal pass results, equal per-category lists and identical report
text. -/
theorem classification_deterministic (F1 F2 : List Instruction)
    (h : F1 = F2) :
    runOnFunction initialPass F1 = runOnFunction initialPass F2 ∧
    (∀ c : Category, listOf (classify F1) c = listOf (classify F2) c) ∧
    printOutput (classify F1) = printOutput (classify F2) := by
  subst h
  exact ⟨rfl, fun c => rfl, rfl⟩

/-- Witness for C6 at two equal copies of a concrete sequence. -/
theorem classification_deterministic_witness :
    runOnFunction initialPass [⟨Opcode.Add, 0⟩, ⟨Opcode.Ret, 1⟩] =
      runOnFunction initialPass [⟨Opcode.Add, 0⟩, ⟨Opcode.Ret, 1⟩] ∧
    (∀ c : Category,
      listOf (classify [⟨Opcode.Add, 0⟩, ⟨Opcode.Ret, 1⟩]) c =
        listOf (classify [⟨Opcode.Add, 0⟩, ⟨Opcode.Ret, 1⟩]) c) ∧
    printOutput (classify [⟨Opcode.Add, 0⟩, ⟨Opcode.Ret, 1⟩]) =
      printOutput (classify [⟨Opcode.Add, 0⟩, ⟨Opcode.Ret, 1⟩]) :=
  classification_deterministic
    [⟨Opcode.Add, 0⟩, ⟨Opcode.Ret, 1⟩]
    [⟨Opcode.Add, 0⟩, ⟨Opcode.Ret, 1⟩] rfl

/-- C7: the pass is read-only over the function: runOnFunction hands the
instruction sequence back unchanged, returns false to signal that the
function was not modified, and getAnalysisUsage declares that all
analyses are preserved. -/
theorem classify_read_only (self : InstructionClassification)
    (F : List Instruction) :
    (runOnFunction self F).2.1 = F ∧
    (runOnFunction self F).2.2 = false ∧
    getAnalysisUsage.preservesAll = true :=
  ⟨rfl, rfl, rfl⟩

/-- C8: classifying the sequence add, add, float divide, load, unknown
future opcode from a fresh state yields two integer-arithmetic
operations, one float-arithmetic operation, one memory operation, one
other operation, and zero in the remaining six categories. -/
theorem example_sequence_counts :
    countOf (classify [⟨Opcode.Add, 0⟩, ⟨Opcode.Add, 1⟩,
      ⟨Opcode.FDiv, 2⟩, ⟨Opcode.Load, 3⟩, ⟨Opcode.Unknown 99, 4⟩])
      Category.BinaryArithmeticInteger = 2 ∧
    countOf (classify [⟨Opcode.Add, 0⟩, ⟨Opcode.Add, 1⟩,
      ⟨Opcode.FDiv, 2⟩, ⟨Opcode.Load, 3⟩, ⟨Opcode.Unknown 99, 4⟩])
      Category.BinaryArithmeticFloat = 1 ∧
    countOf (classify [⟨Opcode.Add, 0⟩, ⟨Opcode.Add, 1⟩,
      ⟨Opcode.FDiv, 2⟩, ⟨Opcode.Load, 3⟩, ⟨Opcode.Unknown 99, 4⟩])
      Category.MemoryAndAddressing = 1 ∧
    countOf (classify [⟨Opcode.Add, 0⟩, ⟨Opcode.Add, 1⟩,
      ⟨Opcode.FDiv, 2⟩, ⟨Opcode.Load, 3⟩, ⟨Opcode.Unknown 99, 4⟩])
      Category.Other = 1 ∧
    countOf (classify [⟨Opcode.Add, 0⟩, ⟨Opcode.Add, 1⟩,
      ⟨Opcode.FDiv, 2⟩, ⟨Opcode.Load, 3⟩, ⟨Opcode.Unknown 99, 4⟩])
      Category.Terminator = 0 ∧
    countOf (classify [⟨Opcode.Add, 0⟩, ⟨Opcode.Add, 1⟩,
      ⟨Opcode.FDiv, 2⟩, ⟨Opcode.Load, 3⟩, ⟨Opcode.Unknown 99, 4⟩])
      Category.UnaryArithmetic = 0 ∧
    countOf (classify [⟨Opcode.Add, 0⟩, ⟨Opcode.Add, 1⟩,
      ⟨Opcode.FDiv, 2⟩, ⟨Opcode.Load, 3⟩, ⟨Opcode.Unknown 99, 4⟩])
      Category.BitwiseBinary = 0 ∧
    countOf (classify [⟨Opcode.Add, 0⟩, ⟨Opcode.Add, 1⟩,
      ⟨Opcode.FDiv, 2⟩, ⟨Opcode.Load, 3⟩, ⟨Opcode.Unknown 99, 4⟩])
      Category.Vector = 0 ∧
    countOf (classify [⟨Opcode.Add, 0⟩, ⟨Opcode.Add, 1⟩,
      ⟨Opcode.FDiv, 2⟩, ⟨Opcode.Load, 3⟩, ⟨Opcode.Unknown 99, 4⟩])
      Category.Aggregate = 0 ∧
    countOf (classify [⟨Opcode.Add, 0⟩, ⟨Opcode.Add, 1⟩,
      ⟨Opcode.FDiv, 2⟩, ⟨Opcode.Load, 3⟩, ⟨Opcode.Unknown 99, 4⟩])
      Category.Conversion = 0 := by
  decide

/-- C9: an operation is placed in the unary-arithmetic category exactly
when its opcode is the floating-point negation FNeg: the lookup table
maps only FNeg there, and the accumulated UnaryOps list contains an
instruction of the input exactly when its opcode is FNeg. -/
theorem unary_category_iff_fneg :
    (∀ op : Opcode,
      categoryOf op = Category.UnaryArithmetic ↔ op = Opcode.FNeg) ∧
    ∀ (F : List Instruction) (I : Instruction),
      I ∈ (classify F).UnaryOps ↔ I ∈ F ∧ I.opcode = Opcode.FNeg := by
  have hop : ∀ op : Opcode,
      categoryOf op = Category.UnaryArithmetic ↔ op = Opcode.FNeg := by
    intro op
    cases op <;>
      first
        | exact Iff.intro (fun _ => rfl) (fun _ => rfl)
        | exact iff_of_false (by decide) (fun hx => Opcode.noConfusion hx)
        | exact iff_of_false (fun hx => Category.noConfusion hx)
            (fun hx => Opcode.noConfusion hx)
  refine ⟨hop, fun F I => ?_⟩
  have h := mem_listOf_classify F I Category.UnaryArithmetic
  rw [show (classify F).UnaryOps =
      listOf (classify F) Category.UnaryArithmetic from rfl, h,
    hop I.opcode]

/-- C10: the report text is a function of the ten counts alone: two pass
states whose category lists have pairwise equal sizes print identical
lines and identical report text, whatever instructions the lists
hold. -/
theorem report_depends_only_on_counts
    (r1 r2 : InstructionClassification)
    (h : ∀ c : Category, countOf r1 c = countOf r2 c) :
    printLines r1 = printLines r2 ∧ printOutput r1 = printOutput r2 := by
  have hT := h Category.Terminator
  have hU := h Category.UnaryArithmetic
  have hB := h Category.BinaryArithmeticInteger
  have hF := h Category.BinaryArithmeticFloat
  have hW := h Category.BitwiseBinary
  have hV := h Category.Vector
  have hA := h Category.Aggregate
  have hM := h Category.MemoryAndAddressing
  have hC := h Category.Conversion
  have hO := h Category.Other
  simp only [countOf, listOf] at hT hU hB hF hW hV hA hM hC hO
  have hlines : printLines r1 = printLines r2 := by
    simp [printLines, hT, hU, hB, hF, hW, hV, hA, hM, hC, hO]
  exact ⟨hlines, congrArg String.join hlines⟩

/-- Witness for C10: two states holding different instructions of equal
count in each category print the same report. -/
theorem report_depends_only_on_counts_witness :
    printLines { initialPass with TermOps := [⟨Opcode.Ret, 5⟩] } =
      printLines { initialPass with TermOps := [⟨Opcode.Br, 9⟩] } ∧
    printOutput { initialPass with TermOps := [⟨Opcode.Ret, 5⟩] } =
      printOutput { initialPass with TermOps := [⟨Opcode.Br, 9⟩] } :=
  report_depends_only_on_counts
    { initialPass with TermOps := [⟨Opcode.Ret, 5⟩] }
    { initialPass with TermOps := [⟨Opcode.Br, 9⟩] }
    (fun c => by cases c <;> rfl)

end InstrClass
